import Mathlib

set_option linter.unusedVariables false

/-! Verification of the PDA Derivation & Pattern-Matching Engine of
`solana-pda-analyser` (crates/core/src/pda.rs, crates/core/src/types.rs,
crates/analyzer/src/patterns.rs), as a shallow embedding.

Modelling conventions: machine integers are `Nat`, with explicit truncation
where the source writes fixed-width little-endian encodings; `f64`
confidence values are exact rationals (`Rat`); the external
`Pubkey::try_find_program_address` of `solana_sdk` is an uninterpreted pure
function parameter (`Tfpa`), matching its purity and determinism in Rust;
Rust `HashMap`s are association lists (iterated in first-insertion order);
wall-clock timing (`analysis_time_ms`), random `Uuid` ids and the
per-pattern statistics counters are not modelled, as no claim concerns
them.  Base58 pubkey literals from the source are represented by distinct
opaque byte lists, one constant per distinct literal. -/

/-- A Solana public key / address (`solana_sdk::pubkey::Pubkey`): an opaque,
comparable byte sequence (32 bytes on chain; opaque here). -/
structure Pubkey where
  bytes : List Nat
deriving DecidableEq, Repr

/-- Constant `ATokenGPvbdGVxr1b2hvZbsiqW5xWH25efTNsLJA8knL`
(the SPL Associated Token Account program, pda.rs line 197). -/
def pkAtaProgram : Pubkey := ⟨[1]⟩

/-- Constant `TokenkegQfeZyiNwAJbNbGKPFXCWuBvf9Ss623VQ5DA`
(the SPL Token program, pda.rs line 218). -/
def pkTokenProgram : Pubkey := ⟨[2]⟩

/-- Constant `metaqbxxUerdq28cj1RbAWkYQm3ybzjb6a8bt518x1s`
(the Metaplex Token Metadata program, pda.rs line 257). -/
def pkMetaplexProgram : Pubkey := ⟨[3]⟩

/-- Constant `9WzDXwBbmkg8ZTbNMqUxvQRAyrZzDsGYdLVL9zYtAWWM` (test wallet). -/
def pkWallet9W : Pubkey := ⟨[10]⟩

/-- Constant `7gXKKGLQs2HpzrPTtBP7kkQ3LktDShQPE8VV9PYW9RSh` (used as test
wallet, test mint, test authority and complex-pattern pubkey). -/
def pk7gXK : Pubkey := ⟨[11]⟩

/-- Constant `5Q544fKrFoe6tsEbD7S8EmxGTJYAKtTVhAW5Q5pge4j1` (test wallet). -/
def pkWallet5Q : Pubkey := ⟨[12]⟩

/-- Constant `8szGkuLTAux9XMgZ2vtY39jVSowEcpBfFfD8hXSEqdGC` (test wallet). -/
def pkWallet8sz : Pubkey := ⟨[13]⟩

/-- Constant `EPjFWdd5AufqSSqeM2qN1xzybapC8G4wEGGkZwyTDt1v` (USDC mint). -/
def pkUSDC : Pubkey := ⟨[20]⟩

/-- Constant `So11111111111111111111111111111111111111112` (wrapped SOL mint). -/
def pkWSOL : Pubkey := ⟨[21]⟩

/-- Constant `Es9vMFrzaCERmJfrF4H2FYD4KCoNkY11McCe8BenwNYB` (USDT mint). -/
def pkUSDT : Pubkey := ⟨[22]⟩

/-- Constant `8HYrKZBRZk9CgGfVv5u3r5G4W3dP2Qe2Y7rZRzMhQKkx` (metaplex test mint). -/
def pk8HYr : Pubkey := ⟨[30]⟩

/-- Constant `11111111111111111111111111111112` (test authority). -/
def pk1112 : Pubkey := ⟨[40]⟩

/-- Constant `DPiH3H3c7t47BMxqTxLsuPQpEC6Kne8GA9VXbxpnZxFE` (complex-pattern pubkey). -/
def pkDPiH : Pubkey := ⟨[41]⟩

/-- `SeedValue` (types.rs lines 16-25): the tagged union of seed encodings. -/
inductive SeedValue where
  | str (s : String)
  | bytes (b : List Nat)
  | pubkey (pk : Pubkey)
  | u64 (n : Nat)
  | u32 (n : Nat)
  | u16 (n : Nat)
  | u8 (n : Nat)
deriving DecidableEq, Repr

/-- UTF-8 bytes of a string (every string in the sources is ASCII, for which
the code point per character is the UTF-8 encoding). -/
def strBytes (s : String) : List Nat := s.data.map Char.toNat

/-- Fixed-width little-endian byte encoding (Rust `to_le_bytes`). -/
def leBytes : Nat → Nat → List Nat
  | 0, _ => []
  | w + 1, n => n % 256 :: leBytes w (n / 256)

/-- `SeedValue::as_bytes` (types.rs lines 28-38). -/
def SeedValue.as_bytes : SeedValue → List Nat
  | .str s => strBytes s
  | .bytes b => b
  | .pubkey pk => pk.bytes
  | .u64 n => leBytes 8 n
  | .u32 n => leBytes 4 n
  | .u16 n => leBytes 2 n
  | .u8 n => [n % 256]

/-- `SeedValue::seed_type` (types.rs lines 40-50). -/
def SeedValue.seed_type : SeedValue → String
  | .str _ => "string"
  | .bytes _ => "bytes"
  | .pubkey _ => "pubkey"
  | .u64 _ => "u64"
  | .u32 _ => "u32"
  | .u16 _ => "u16"
  | .u8 _ => "u8"

/-- `PdaInfo` (types.rs lines 6-14). -/
structure PdaInfo where
  address : Pubkey
  program_id : Pubkey
  seeds : List SeedValue
  bump : Nat
  first_seen_slot : Option Nat
  first_seen_transaction : Option String
deriving DecidableEq, Repr

/-- The external `Pubkey::try_find_program_address(seeds, program_id)` of
`solana_sdk`, kept uninterpreted: a pure function from the seed byte
sequences and the program id to an optional (derived address, bump). -/
abbrev Tfpa : Type := List (List Nat) → Pubkey → Option (Pubkey × Nat)

/-- `PdaAnalyzerError` (crates/core/src/error.rs lines 3-31). -/
inductive PdaAnalyzerError where
  | invalidSeedData (msg : String)
  | pdaDerivationFailed (msg : String)
  | invalidProgramId (msg : String)
  | invalidPublicKey (msg : String)
  | transactionParsingError (msg : String)
  | databaseError (msg : String)
  | serializationError (msg : String)
  | networkError (msg : String)
  | configurationError (msg : String)
deriving DecidableEq, Repr

/-- The cache key of `type PdaCache = HashMap<(Pubkey, Vec<Vec<u8>>),
Option<PdaInfo>>` (pda.rs line 7). -/
abbrev CacheKey := Pubkey × List (List Nat)

/-- The `PdaCache` map, as an association list with unique keys. -/
abbrev PdaCache := List (CacheKey × Option PdaInfo)

/-- `HashMap::get` on the model cache. -/
def cacheLookup (key : CacheKey) : PdaCache → Option (Option PdaInfo)
  | [] => none
  | (k, v) :: rest => if k = key then some v else cacheLookup key rest

/-- `HashMap::insert` on the model cache: replaces the value of an existing
key, otherwise appends a fresh entry. -/
def cacheInsert (key : CacheKey) (val : Option PdaInfo) : PdaCache → PdaCache
  | [] => [(key, val)]
  | (k, v) :: rest =>
    if k = key then (key, val) :: rest else (k, v) :: cacheInsert key val rest

/-- Mutable state of `PdaAnalyzer` relevant to `derive_pda`: the memoization
cache, plus an instrumentation counter `hash_evals` recording how many times
`try_find_program_address` has been invoked by `derive_pda` (the hash
evaluation count of the specification's cache-transparency property). -/
structure DeriveState where
  cache : PdaCache
  hash_evals : Nat
deriving Repr

/-- `PdaAnalyzer::derive_pda` (pda.rs lines 588-619).  The source shape is
kept: a cached `Some(pda_info)` returns early, while a cached `None` falls
through the inner `if let` and reaches the derivation again. -/
def derive_pda (tfpa : Tfpa) (st : DeriveState) (program_id : Pubkey)
    (seeds : List SeedValue) : Except PdaAnalyzerError PdaInfo × DeriveState :=
  let seed_bytes := seeds.map SeedValue.as_bytes
  let cache_key : CacheKey := (program_id, seed_bytes)
  match cacheLookup cache_key st.cache with
  | some (some pda_info) => (.ok pda_info, st)
  | _ =>
    match tfpa seed_bytes program_id with
    | some (address, bump) =>
      let pda_info : PdaInfo :=
        { address := address, program_id := program_id, seeds := seeds,
          bump := bump, first_seen_slot := none, first_seen_transaction := none }
      (.ok pda_info,
       { cache := cacheInsert cache_key (some pda_info) st.cache,
         hash_evals := st.hash_evals + 1 })
    | none =>
      (.error (.pdaDerivationFailed "Invalid seeds"),
       { cache := cacheInsert cache_key none st.cache,
         hash_evals := st.hash_evals + 1 })

/-- `PdaAnalyzer::cache_stats` (pda.rs lines 642-646): `(entries holding a
successful result, total entries)`. -/
def cache_stats (st : DeriveState) : Nat × Nat :=
  ((st.cache.filter (fun e => e.2.isSome)).length, st.cache.length)

/-- Modelled from the spec: `PdaDeriver::verify_pda` is exercised by
crates/core/tests/pda_tests.rs (`test_pda_verification`) but its
implementation is not among the sources; per the spec, "A companion
`verify(address, program_id, seeds) → bool` re-derives and compares
equality; ... it simply forwards to derive and compares". -/
def verify_pda (tfpa : Tfpa) (st : DeriveState) (address program_id : Pubkey)
    (seeds : List SeedValue) : Except PdaAnalyzerError Bool × DeriveState :=
  match derive_pda tfpa st program_id seeds with
  | (.ok pda, st') => (.ok (decide (pda.address = address)), st')
  | (.error e, st') => (.error e, st')

/-- `PdaPattern` (pda.rs lines 10-25). -/
inductive PdaPattern where
  | associatedTokenAccount
  | metaplexMetadata
  | metaplexMasterEdition
  | metaplexEdition
  | stringSingleton
  | stringAuthority
  | stringPubkey
  | stringPubkeyString
  | pubkeyU64
  | pubkeyU8
  | sequential
  | complex
  | unknown
deriving DecidableEq, Repr

/-- `PdaAnalysisResult` (pda.rs lines 47-53); `analysis_time_ms` is a
wall-clock measurement in the source and fixed to 0 in the model. -/
structure PdaAnalysisResult where
  pda_info : PdaInfo
  pattern : PdaPattern
  confidence : Rat
  analysis_time_ms : Nat
deriving DecidableEq, Repr

/-- One candidate derivation attempt of a pattern family: the seed byte
sequences handed to `try_find_program_address`, the `SeedValue` list written
into the `PdaInfo` on success, and the pattern tag and confidence the family
reports.  Every family body in pda.rs has exactly this per-candidate shape. -/
structure Attempt where
  seedBytes : List (List Nat)
  seeds : List SeedValue
  pattern : PdaPattern
  confidence : Rat
deriving DecidableEq, Repr

/-- One candidate trial (the body shared by every family loop in pda.rs):
call `try_find_program_address`, compare the derived address to the target,
and on equality build the `PdaInfo` exactly as the source does. -/
def runAttempt (tfpa : Tfpa) (address program_id : Pubkey) (a : Attempt) :
    Option (PdaInfo × PdaPattern × Rat) :=
  match tfpa a.seedBytes program_id with
  | some (derived, bump) =>
    if derived = address then
      some ({ address := address, program_id := program_id, seeds := a.seeds,
              bump := bump, first_seen_slot := none,
              first_seen_transaction := none },
            a.pattern, a.confidence)
    else none
  | none => none

/-- A family loop: try candidates in order, first success returns; the `Nat`
counts how many `try_find_program_address` calls were made. -/
def runAttempts (tfpa : Tfpa) (address program_id : Pubkey) :
    List Attempt → Option (PdaInfo × PdaPattern × Rat) × Nat
  | [] => (none, 0)
  | a :: rest =>
    match runAttempt tfpa address program_id a with
    | some r => (some r, 1)
    | none =>
      let (r, n) := runAttempts tfpa address program_id rest
      (r, n + 1)

/-- `test_wallets` (pda.rs lines 204-209). -/
def test_wallets : List Pubkey := [pkWallet9W, pk7gXK, pkWallet5Q, pkWallet8sz]

/-- `test_mints` (pda.rs lines 211-216). -/
def test_mints : List Pubkey := [pkUSDC, pkWSOL, pkUSDT, pk7gXK]

/-- Candidates of `try_associated_token_account` (pda.rs lines 196-253):
gated on the ATA program id; wallets × mints, seeds
`[wallet, spl_token_program, mint]`, confidence 0.98. -/
def ata_attempts (program_id : Pubkey) : List Attempt :=
  if program_id = pkAtaProgram then
    test_wallets.flatMap (fun w =>
      test_mints.map (fun m =>
        { seedBytes := [w.bytes, pkTokenProgram.bytes, m.bytes],
          seeds := [SeedValue.pubkey w, SeedValue.pubkey pkTokenProgram,
                    SeedValue.pubkey m],
          pattern := PdaPattern.associatedTokenAccount,
          confidence := 98/100 }))
  else []

/-- `try_associated_token_account` (pda.rs lines 196-253). -/
def try_associated_token_account (tfpa : Tfpa) (address program_id : Pubkey) :
    Option (PdaInfo × PdaPattern × Rat) × Nat :=
  runAttempts tfpa address program_id (ata_attempts program_id)

/-- `test_mints` of `try_metaplex_patterns` (pda.rs lines 263-267). -/
def metaplex_mints : List Pubkey := [pk7gXK, pk8HYr, pkWSOL]

/-- Candidates of `try_metaplex_patterns` (pda.rs lines 256-357): gated on
the Metaplex program id; per mint, the metadata triple, the master-edition
quadruple, then numbered editions 1..=10. -/
def metaplex_attempts (program_id : Pubkey) : List Attempt :=
  if program_id = pkMetaplexProgram then
    metaplex_mints.flatMap (fun mint =>
      [ { seedBytes := [strBytes "metadata", program_id.bytes, mint.bytes],
          seeds := [SeedValue.str "metadata", SeedValue.pubkey program_id,
                    SeedValue.pubkey mint],
          pattern := PdaPattern.metaplexMetadata, confidence := 95/100 },
        { seedBytes := [strBytes "metadata", program_id.bytes, mint.bytes,
                        strBytes "edition"],
          seeds := [SeedValue.str "metadata", SeedValue.pubkey program_id,
                    SeedValue.pubkey mint, SeedValue.str "edition"],
          pattern := PdaPattern.metaplexMasterEdition, confidence := 93/100 } ]
      ++ (List.range 10).map (fun k =>
        { seedBytes := [strBytes "metadata", program_id.bytes, mint.bytes,
                        strBytes "edition", leBytes 8 (k + 1)],
          seeds := [SeedValue.str "metadata", SeedValue.pubkey program_id,
                    SeedValue.pubkey mint, SeedValue.str "edition",
                    SeedValue.u64 (k + 1)],
          pattern := PdaPattern.metaplexEdition, confidence := 90/100 }))
  else []

/-- `try_metaplex_patterns` (pda.rs lines 256-357). -/
def try_metaplex_patterns (tfpa : Tfpa) (address program_id : Pubkey) :
    Option (PdaInfo × PdaPattern × Rat) × Nat :=
  runAttempts tfpa address program_id (metaplex_attempts program_id)

/-- `common_strings` (pda.rs lines 361-367). -/
def common_strings : List String :=
  ["state", "config", "authority", "vault", "pool", "market",
   "escrow", "registry", "governance", "proposal", "metadata",
   "treasury", "rewards", "staking", "lending", "farming",
   "oracle", "price_feed", "liquidity", "swap", "mint_authority",
   "global", "settings", "admin", "owner", "controller"]

/-- Per-string confidence of `try_string_singleton_patterns`
(pda.rs lines 373-377). -/
def singleton_confidence (s : String) : Rat :=
  if s = "state" ∨ s = "config" ∨ s = "authority" then 92/100
  else if s = "vault" ∨ s = "pool" ∨ s = "market" then 88/100
  else 85/100

/-- Candidates of `try_string_singleton_patterns` (pda.rs lines 360-393). -/
def singleton_attempts : List Attempt :=
  common_strings.map (fun s =>
    { seedBytes := [strBytes s], seeds := [SeedValue.str s],
      pattern := PdaPattern.stringSingleton,
      confidence := singleton_confidence s })

/-- `try_string_singleton_patterns` (pda.rs lines 360-393). -/
def try_string_singleton_patterns (tfpa : Tfpa) (address program_id : Pubkey) :
    Option (PdaInfo × PdaPattern × Rat) × Nat :=
  runAttempts tfpa address program_id singleton_attempts

/-- `test_authorities` (pda.rs lines 397-402). -/
def test_authorities : List Pubkey := [pk1112, pkTokenProgram, pkWallet9W, pk7gXK]

/-- Candidates of `try_authority_patterns` (pda.rs lines 396-486): per
authority, `[authority]`, then `["authority", authority]`, then
`[authority, u64 nonce]` for nonce 0..=10, then `[authority, u8 b]` for
b 250..=255. -/
def authority_attempts : List Attempt :=
  test_authorities.flatMap (fun auth =>
    [ { seedBytes := [auth.bytes], seeds := [SeedValue.pubkey auth],
        pattern := PdaPattern.stringAuthority, confidence := 87/100 },
      { seedBytes := [strBytes "authority", auth.bytes],
        seeds := [SeedValue.str "authority", SeedValue.pubkey auth],
        pattern := PdaPattern.stringPubkey, confidence := 85/100 } ]
    ++ (List.range 11).map (fun nonce =>
      { seedBytes := [auth.bytes, leBytes 8 nonce],
        seeds := [SeedValue.pubkey auth, SeedValue.u64 nonce],
        pattern := PdaPattern.pubkeyU64, confidence := 83/100 })
    ++ (List.range 6).map (fun k =>
      { seedBytes := [auth.bytes, [250 + k]],
        seeds := [SeedValue.pubkey auth, SeedValue.u8 (250 + k)],
        pattern := PdaPattern.pubkeyU8, confidence := 82/100 }))

/-- `try_authority_patterns` (pda.rs lines 396-486). -/
def try_authority_patterns (tfpa : Tfpa) (address program_id : Pubkey) :
    Option (PdaInfo × PdaPattern × Rat) × Nat :=
  runAttempts tfpa address program_id authority_attempts

/-- `prefixes` of `try_sequential_patterns` (pda.rs line 490). -/
def sequential_prefix_strings : List String :=
  ["account", "user", "pool", "vault", "market", "index", "item"]

/-- Candidates of `try_sequential_patterns` (pda.rs lines 489-535): per
prefix and index 0..=50, the u64 encoding then the u32 encoding. -/
def sequential_attempts : List Attempt :=
  sequential_prefix_strings.flatMap (fun p =>
    (List.range 51).flatMap (fun i =>
      [ { seedBytes := [strBytes p, leBytes 8 i],
          seeds := [SeedValue.str p, SeedValue.u64 i],
          pattern := PdaPattern.sequential, confidence := 80/100 },
        { seedBytes := [strBytes p, leBytes 4 i],
          seeds := [SeedValue.str p, SeedValue.u32 i],
          pattern := PdaPattern.sequential, confidence := 78/100 } ]))

/-- `try_sequential_patterns` (pda.rs lines 489-535). -/
def try_sequential_patterns (tfpa : Tfpa) (address program_id : Pubkey) :
    Option (PdaInfo × PdaPattern × Rat) × Nat :=
  runAttempts tfpa address program_id sequential_attempts

/-- `strings` of `try_complex_patterns` (pda.rs line 539). -/
def complex_strings : List String :=
  ["governance", "proposal", "vote", "realm", "council"]

/-- `test_pubkeys` of `try_complex_patterns` (pda.rs lines 540-544). -/
def complex_pubkeys : List Pubkey := [pk1112, pkDPiH, pk7gXK]

/-- Candidates of `try_complex_patterns` (pda.rs lines 538-585):
`[s1, pubkey, s2, u32 n]` for s1, s2 distinct strings, n in {0, 1, 2}. -/
def complex_attempts : List Attempt :=
  complex_strings.flatMap (fun s1 =>
    complex_pubkeys.flatMap (fun pk =>
      complex_strings.flatMap (fun s2 =>
        if s1 ≠ s2 then
          [0, 1, 2].map (fun n =>
            { seedBytes := [strBytes s1, pk.bytes, strBytes s2, leBytes 4 n],
              seeds := [SeedValue.str s1, SeedValue.pubkey pk,
                        SeedValue.str s2, SeedValue.u32 n],
              pattern := PdaPattern.complex, confidence := 75/100 })
        else [])))

/-- `try_complex_patterns` (pda.rs lines 538-585). -/
def try_complex_patterns (tfpa : Tfpa) (address program_id : Pubkey) :
    Option (PdaInfo × PdaPattern × Rat) × Nat :=
  runAttempts tfpa address program_id complex_attempts

/-- Packaging of a family hit into a `PdaAnalysisResult`
(pda.rs lines 122-127 and analogous blocks). -/
def mkResult (pda : PdaInfo) (pat : PdaPattern) (conf : Rat) :
    PdaAnalysisResult :=
  { pda_info := pda, pattern := pat, confidence := conf, analysis_time_ms := 0 }

/-- `PdaAnalyzer::analyze_pda` (pda.rs lines 115-193): the six families in
priority order, first success wins, exhaustion yields `Ok(None)`.  The
second component counts the `try_find_program_address` invocations made.
The per-pattern statistics update (`update_pattern_stats`) and the elapsed
wall-clock time are not modelled. -/
def analyze_pda (tfpa : Tfpa) (address program_id : Pubkey) :
    Except PdaAnalyzerError (Option PdaAnalysisResult) × Nat :=
  match try_associated_token_account tfpa address program_id with
  | (some (pda, pat, conf), n) => (.ok (some (mkResult pda pat conf)), n)
  | (none, n1) =>
  match try_metaplex_patterns tfpa address program_id with
  | (some (pda, pat, conf), n) => (.ok (some (mkResult pda pat conf)), n1 + n)
  | (none, n2) =>
  match try_string_singleton_patterns tfpa address program_id with
  | (some (pda, pat, conf), n) =>
    (.ok (some (mkResult pda pat conf)), n1 + n2 + n)
  | (none, n3) =>
  match try_authority_patterns tfpa address program_id with
  | (some (pda, pat, conf), n) =>
    (.ok (some (mkResult pda pat conf)), n1 + n2 + n3 + n)
  | (none, n4) =>
  match try_sequential_patterns tfpa address program_id with
  | (some (pda, pat, conf), n) =>
    (.ok (some (mkResult pda pat conf)), n1 + n2 + n3 + n4 + n)
  | (none, n5) =>
  match try_complex_patterns tfpa address program_id with
  | (some (pda, pat, conf), n) =>
    (.ok (some (mkResult pda pat conf)), n1 + n2 + n3 + n4 + n5 + n)
  | (none, n6) => (.ok none, n1 + n2 + n3 + n4 + n5 + n6)

/-- `SeedTemplate` (types.rs lines 62-68). -/
structure SeedTemplate where
  name : String
  seed_type : String
  description : Option String
  is_variable : Bool
deriving DecidableEq, Repr

/-- `PdaPatternTemplate` (types.rs lines 53-60): the named-template record
the analyzer crate manipulates (the tests build it under the re-exported
name `PdaPattern`); its random `Uuid` id is not modelled. -/
structure PdaPatternTemplate where
  program_id : Pubkey
  pattern_name : String
  seeds_template : List SeedTemplate
  description : Option String
deriving DecidableEq, Repr

/-- `create_pattern_signature` (patterns.rs lines 142-151). -/
def create_pattern_signature (seeds : List SeedValue) : String :=
  if seeds.isEmpty then "empty"
  else String.intercalate ":" (seeds.map SeedValue.seed_type)

/-- `create_seed_template` (patterns.rs lines 153-163). -/
def create_seed_template (seeds : List SeedValue) : List SeedTemplate :=
  seeds.enum.map (fun p =>
    { name := "seed_" ++ toString p.1,
      seed_type := p.2.seed_type,
      description := some ("Seed parameter " ++ toString p.1),
      is_variable := true })

/-- `calculate_confidence` (patterns.rs lines 165-173), `f64` as `Rat`. -/
def calculate_confidence (frequency total_pdas : Nat) : Rat :=
  if total_pdas = 0 then 0
  else min ((frequency : Rat) / (total_pdas : Rat) * 100) 95

/-- `DetectedPattern` (patterns.rs lines 208-217); the random `Uuid` id is
not modelled. -/
structure DetectedPattern where
  program_id : Pubkey
  pattern_signature : String
  seed_template : List SeedTemplate
  frequency : Nat
  confidence : Rat
  examples : List Pubkey
deriving DecidableEq, Repr

/-- `PatternMatch` (patterns.rs lines 219-225); the `Uuid` pattern id is
not modelled. -/
structure PatternMatch where
  pattern_name : String
  match_score : Rat
  matched_seeds : List SeedValue
deriving DecidableEq, Repr

/-- The `*entry += 1` step on `pattern_frequency` (patterns.rs lines 38-39),
on an association list in first-insertion order. -/
def bumpFreq (sig : String) : List (String × Nat) → List (String × Nat)
  | [] => [(sig, 1)]
  | (s, n) :: rest =>
    if s = sig then (s, n + 1) :: rest else (s, n) :: bumpFreq sig rest

/-- The `.or_insert_with(Vec::new).push(pda)` step on `seed_combinations`
(patterns.rs lines 41-44). -/
def pushGroup (sig : String) (pda : PdaInfo) :
    List (String × List PdaInfo) → List (String × List PdaInfo)
  | [] => [(sig, [pda])]
  | (s, g) :: rest =>
    if s = sig then (s, g ++ [pda]) :: rest else (s, g) :: pushGroup sig pda rest

/-- `seed_combinations.get(&pattern_sig)` (patterns.rs line 53). -/
def lookupGroup (sig : String) :
    List (String × List PdaInfo) → Option (List PdaInfo)
  | [] => none
  | (s, g) :: rest => if s = sig then some g else lookupGroup sig rest

/-- One iteration of the tallying loop of `detect_patterns`
(patterns.rs lines 35-46): records with a different program id are skipped;
a matching record bumps its signature's frequency and joins its group. -/
def tallyStep (program_id : Pubkey)
    (acc : List (String × Nat) × List (String × List PdaInfo))
    (pda : PdaInfo) : List (String × Nat) × List (String × List PdaInfo) :=
  if pda.program_id = program_id then
    let sig := create_pattern_signature pda.seeds
    (bumpFreq sig acc.1, pushGroup sig pda acc.2)
  else acc

/-- Generic insertion step of a stable insertion sort by a Boolean
precedence relation `le` (`le a b` = "a may come before b"). -/
def insertSorted (le : α → α → Bool) (x : α) : List α → List α
  | [] => [x]
  | y :: ys => if le x y then x :: y :: ys else y :: insertSorted le x ys

/-- Insertion sort by a Boolean precedence relation, modelling Rust
`sort_by` with a total comparator. -/
def sortByBool (le : α → α → Bool) : List α → List α
  | [] => []
  | x :: xs => insertSorted le x (sortByBool le xs)

/-- The comparator of `detect_patterns` (patterns.rs lines 71-74):
descending frequency, ties by descending confidence. -/
def detLe (a b : DetectedPattern) : Bool :=
  decide (b.frequency < a.frequency ∨
    (b.frequency = a.frequency ∧ b.confidence ≤ a.confidence))

/-- `PatternDetector::detect_patterns` (patterns.rs lines 30-80).  The Rust
`HashMap`s are iterated in first-insertion order; the random `Uuid` and the
`detected_patterns` cache write (line 77) are not modelled. -/
def detect_patterns (program_id : Pubkey) (pdas : List PdaInfo) :
    List DetectedPattern :=
  let acc := pdas.foldl (tallyStep program_id) ([], [])
  let detected := acc.1.filterMap (fun e =>
    if 2 ≤ e.2 then
      match lookupGroup e.1 acc.2 with
      | some (ex0 :: exs) =>
        some { program_id := program_id,
               pattern_signature := e.1,
               seed_template := create_seed_template ex0.seeds,
               frequency := e.2,
               confidence := calculate_confidence e.2 pdas.length,
               examples := ((ex0 :: exs).take 5).map (fun p => p.address) }
      | _ => none
    else none)
  sortByBool detLe detected

/-- `calculate_pattern_match` (patterns.rs lines 175-188). -/
def calculate_pattern_match (seeds : List SeedValue)
    (template : List SeedTemplate) : Option Rat :=
  if seeds.length ≠ template.length then none
  else
    let matchCount := ((seeds.zip template).filter
      (fun p => decide (p.1.seed_type = p.2.seed_type))).length
    some ((matchCount : Rat) / (seeds.length : Rat) * 100)

/-- `PatternDetector.known_patterns`: program id → registered templates, as
an association list. -/
abbrev KnownPatterns := List (Pubkey × List PdaPatternTemplate)

/-- `self.known_patterns.get(&pda.program_id)` (patterns.rs line 85). -/
def lookupKnown (program_id : Pubkey) :
    KnownPatterns → Option (List PdaPatternTemplate)
  | [] => none
  | (k, v) :: rest => if k = program_id then some v else lookupKnown program_id rest

/-- The comparator of `match_against_known_patterns` (patterns.rs line 98):
descending match score. -/
def matchLe (a b : PatternMatch) : Bool := decide (b.match_score ≤ a.match_score)

/-- `match_against_known_patterns` (patterns.rs lines 82-100). -/
def match_against_known_patterns (known : KnownPatterns) (pda : PdaInfo) :
    List PatternMatch :=
  let pats := (lookupKnown pda.program_id known).getD []
  let found := pats.filterMap (fun pat =>
    (calculate_pattern_match pda.seeds pat.seeds_template).map (fun score =>
      { pattern_name := pat.pattern_name, match_score := score,
        matched_seeds := pda.seeds }))
  sortByBool matchLe found

/-- Looking a key up right after inserting it yields the inserted value. -/
theorem cacheLookup_cacheInsert_self (key : CacheKey) (v : Option PdaInfo)
    (c : PdaCache) : cacheLookup key (cacheInsert key v c) = some v := by
  induction c with
  | nil => simp [cacheInsert, cacheLookup]
  | cons e rest ih =>
    obtain ⟨k, w⟩ := e
    by_cases h : k = key
    · simp [cacheInsert, cacheLookup, h]
    · simp [cacheInsert, cacheLookup, h, ih]

/-- Lookup after insert: the inserted key reads the new value, other keys
are unaffected. -/
theorem cacheLookup_cacheInsert (key key' : CacheKey) (v : Option PdaInfo)
    (c : PdaCache) :
    cacheLookup key' (cacheInsert key v c) =
      if key = key' then some v else cacheLookup key' c := by
  induction c with
  | nil => by_cases h : key = key' <;> simp [cacheInsert, cacheLookup, h]
  | cons e rest ih =>
    obtain ⟨k, w⟩ := e
    by_cases h1 : k = key
    · subst h1
      by_cases h2 : k = key' <;> simp [cacheInsert, cacheLookup, h2]
    · by_cases h2 : k = key'
      · subst h2
        simp [cacheInsert, cacheLookup, h1, Ne.symm h1]
      · simp [cacheInsert, cacheLookup, h1, h2, ih]

/-- Claim C1: `derive_pda` is deterministic across consecutive calls — for
every program id and seed list, and from every starting state, a second call
with the same pair returns exactly the first call's result (the same
address and bump on success, the same failure otherwise), whether or not it
is served from the cache. -/
theorem derive_pda_deterministic (tfpa : Tfpa) (st : DeriveState)
    (program_id : Pubkey) (seeds : List SeedValue) :
    (derive_pda tfpa (derive_pda tfpa st program_id seeds).2
        program_id seeds).1
      = (derive_pda tfpa st program_id seeds).1 := by
  rcases h : cacheLookup (program_id, seeds.map SeedValue.as_bytes) st.cache
    with _ | (_ | pda)
  · rcases ht : tfpa (seeds.map SeedValue.as_bytes) program_id with _ | ⟨a, b⟩
    · simp [derive_pda, h, ht, cacheLookup_cacheInsert_self]
    · simp [derive_pda, h, ht, cacheLookup_cacheInsert_self]
  · rcases ht : tfpa (seeds.map SeedValue.as_bytes) program_id with _ | ⟨a, b⟩
    · simp [derive_pda, h, ht, cacheLookup_cacheInsert_self]
    · simp [derive_pda, h, ht, cacheLookup_cacheInsert_self]
  · simp [derive_pda, h]

/-- Claim C2 (code bug witness): after a first failing `derive_pda` call the
negative result is stored in the cache, yet the second call with the same
key still invokes `try_find_program_address` again — the instrumented hash
evaluation count rises from 1 to 2, because the cached `None` falls through
the inner `if let Some(pda_info)` of pda.rs lines 592-596. -/
theorem derive_pda_refails_rehash :
    ((derive_pda (fun _ _ => none) ⟨[], 0⟩ ⟨[99]⟩ []).2.cache
        = [((⟨[99]⟩, []), none)]
      ∧ (derive_pda (fun _ _ => none) ⟨[], 0⟩ ⟨[99]⟩ []).2.hash_evals = 1)
    ∧ (derive_pda (fun _ _ => none)
        (derive_pda (fun _ _ => none) ⟨[], 0⟩ ⟨[99]⟩ []).2 ⟨[99]⟩ []).2.hash_evals = 2
    ∧ (derive_pda (fun _ _ => none)
        (derive_pda (fun _ _ => none) ⟨[], 0⟩ ⟨[99]⟩ []).2 ⟨[99]⟩ []).1
        = .error (.pdaDerivationFailed "Invalid seeds") :=
  ⟨⟨rfl, rfl⟩, rfl, rfl⟩

/-- Claim C3: `verify_pda` (modelled from the spec, the implementation being
absent from the sources) accepts exactly the derived address — whenever
derivation succeeds, verifying the derived address returns `Ok(true)` and
verifying any other address returns `Ok(false)`. -/
theorem verify_pda_sound (tfpa : Tfpa) (st : DeriveState)
    (program_id : Pubkey) (seeds : List SeedValue) (pda : PdaInfo)
    (h : (derive_pda tfpa st program_id seeds).1 = .ok pda) :
    (verify_pda tfpa st pda.address program_id seeds).1 = .ok true ∧
    ∀ a : Pubkey, a ≠ pda.address →
      (verify_pda tfpa st a program_id seeds).1 = .ok false := by
  rcases hde : derive_pda tfpa st program_id seeds with ⟨r, st2⟩
  rw [hde] at h
  simp only at h
  subst h
  constructor
  · simp [verify_pda, hde]
  · intro a ha
    have hne : pda.address ≠ a := fun hh => ha hh.symm
    simp [verify_pda, hde, hne]

/-- A concrete always-succeeding stand-in for `try_find_program_address`,
used to instantiate hypotheses at concrete inputs. -/
def tfpaConst : Tfpa := fun _ _ => some (⟨[7]⟩, 255)

/-- Witness for C3 at a concrete input: deriving `["test"]` under program
`⟨[5]⟩` with `tfpaConst` yields address `⟨[7]⟩`; verify accepts it and
rejects `⟨[8]⟩`. -/
theorem verify_pda_sound_witness :
    (verify_pda tfpaConst ⟨[], 0⟩ ⟨[7]⟩ ⟨[5]⟩ [SeedValue.str "test"]).1
      = .ok true ∧
    (verify_pda tfpaConst ⟨[], 0⟩ ⟨[8]⟩ ⟨[5]⟩ [SeedValue.str "test"]).1
      = .ok false := by
  have h : (derive_pda tfpaConst ⟨[], 0⟩ ⟨[5]⟩ [SeedValue.str "test"]).1 =
      .ok { address := ⟨[7]⟩, program_id := ⟨[5]⟩,
            seeds := [SeedValue.str "test"], bump := 255,
            first_seen_slot := none, first_seen_transaction := none } := rfl
  have hs := verify_pda_sound tfpaConst ⟨[], 0⟩ ⟨[5]⟩ [SeedValue.str "test"] _ h
  exact ⟨hs.1, hs.2 ⟨[8]⟩ (by decide)⟩

/-- Claim C9 counterexample: the cache key is the seed *byte* lists, so a
second call with a different `SeedValue` list of identical byte encoding
(`[Bytes [97]]` vs `[String "a"]`) is served the cached record, whose
`seeds` field is the FIRST caller's seed list, not the second caller's. -/
theorem derive_pda_cache_seed_collision :
    (derive_pda tfpaConst
        (derive_pda tfpaConst ⟨[], 0⟩ ⟨[5]⟩ [SeedValue.str "a"]).2
        ⟨[5]⟩ [SeedValue.bytes [97]]).1
      = .ok { address := ⟨[7]⟩, program_id := ⟨[5]⟩,
              seeds := [SeedValue.str "a"], bump := 255,
              first_seen_slot := none, first_seen_transaction := none }
    ∧ [SeedValue.str "a"] ≠ [SeedValue.bytes [97]]
    ∧ (SeedValue.str "a").as_bytes = (SeedValue.bytes [97]).as_bytes :=
  ⟨rfl, by decide, rfl⟩

/-- Well-formedness of the derivation cache with respect to the derivation
function: every successful entry sits under exactly the key formed by its
own program id and seed byte encoding, and records the address and bump
that derivation on that key produces. -/
def CacheWF (tfpa : Tfpa) (cache : PdaCache) : Prop :=
  ∀ key pda, cacheLookup key cache = some (some pda) →
    pda.program_id = key.1 ∧
    pda.seeds.map SeedValue.as_bytes = key.2 ∧
    tfpa key.2 key.1 = some (pda.address, pda.bump)

/-- Inserting a negative entry preserves cache well-formedness. -/
theorem CacheWF_insert_none (tfpa : Tfpa) (c : PdaCache) (key : CacheKey)
    (hwf : CacheWF tfpa c) : CacheWF tfpa (cacheInsert key none c) := by
  intro k pda hl
  rw [cacheLookup_cacheInsert] at hl
  by_cases hk : key = k
  · rw [if_pos hk] at hl; exact absurd hl (by simp)
  · rw [if_neg hk] at hl; exact hwf k pda hl

/-- Inserting a successful entry under its own key preserves cache
well-formedness. -/
theorem CacheWF_insert_some (tfpa : Tfpa) (c : PdaCache) (key : CacheKey)
    (pda : PdaInfo) (h1 : pda.program_id = key.1)
    (h2 : pda.seeds.map SeedValue.as_bytes = key.2)
    (h3 : tfpa key.2 key.1 = some (pda.address, pda.bump))
    (hwf : CacheWF tfpa c) : CacheWF tfpa (cacheInsert key (some pda) c) := by
  intro k q hl
  rw [cacheLookup_cacheInsert] at hl
  by_cases hk : key = k
  · rw [if_pos hk] at hl
    injection hl with hl1
    injection hl1 with hl2
    subst hl2
    subst hk
    exact ⟨h1, h2, h3⟩
  · rw [if_neg hk] at hl; exact hwf k q hl

/-- Claim C9 (amended): a cached entry is consulted only under the exact
(program id, seed-byte-sequence list) key, and any record `derive_pda`
returns carries the caller's program id, a seed list whose byte encoding
equals the caller's, and the address and bump the caller's own derivation
would produce — the cache is never stale for a different byte key, though
the `SeedValue` list stored may differ from the caller's when the two
encode to the same bytes. -/
theorem derive_pda_cache_exact_key (tfpa : Tfpa) (st : DeriveState)
    (program_id : Pubkey) (seeds : List SeedValue)
    (hwf : CacheWF tfpa st.cache) :
    CacheWF tfpa (derive_pda tfpa st program_id seeds).2.cache ∧
    ∀ pda, (derive_pda tfpa st program_id seeds).1 = .ok pda →
      pda.program_id = program_id ∧
      pda.seeds.map SeedValue.as_bytes = seeds.map SeedValue.as_bytes ∧
      tfpa (seeds.map SeedValue.as_bytes) program_id
        = some (pda.address, pda.bump) := by
  rcases h : cacheLookup (program_id, seeds.map SeedValue.as_bytes) st.cache
    with _ | (_ | pda0)
  case some.some =>
    have hd : derive_pda tfpa st program_id seeds = (.ok pda0, st) := by
      simp [derive_pda, h]
    rw [hd]
    refine ⟨hwf, ?_⟩
    intro pda hok
    simp only at hok
    injection hok with h1
    subst h1
    exact hwf (program_id, seeds.map SeedValue.as_bytes) pda0 h
  all_goals
    rcases ht : tfpa (seeds.map SeedValue.as_bytes) program_id with _ | ⟨a, b⟩ <;>
      [ (have hd : derive_pda tfpa st program_id seeds =
          (.error (.pdaDerivationFailed "Invalid seeds"),
           { cache := cacheInsert (program_id, seeds.map SeedValue.as_bytes)
               none st.cache, hash_evals := st.hash_evals + 1 }) := by
            simp [derive_pda, h, ht]);
        (have hd : derive_pda tfpa st program_id seeds =
          (.ok { address := a, program_id := program_id, seeds := seeds,
                 bump := b, first_seen_slot := none,
                 first_seen_transaction := none },
           { cache := cacheInsert (program_id, seeds.map SeedValue.as_bytes)
               (some { address := a, program_id := program_id, seeds := seeds,
                       bump := b, first_seen_slot := none,
                       first_seen_transaction := none }) st.cache,
             hash_evals := st.hash_evals + 1 }) := by
            simp [derive_pda, h, ht]) ] <;>
    rw [hd] <;>
    [ exact ⟨CacheWF_insert_none tfpa st.cache _ hwf,
        fun pda hok => absurd hok (by simp)⟩;
      refine ⟨CacheWF_insert_some tfpa st.cache _ _ rfl rfl ht hwf, ?_⟩ ] <;>
    · intro pda hok
      simp only at hok
      injection hok with h1
      subst h1
      refine ⟨rfl, rfl, ?_⟩
      simp only [ht]

/-- Witness for the amended C9: from the empty cache (vacuously
well-formed), one concrete `derive_pda` call leaves the cache well-formed. -/
theorem derive_pda_cache_exact_key_witness :
    CacheWF tfpaConst
      (derive_pda tfpaConst ⟨[], 0⟩ ⟨[5]⟩ [SeedValue.u8 3]).2.cache := by
  have h0 : CacheWF tfpaConst [] := by
    intro key pda hl
    simp [cacheLookup] at hl
  exact (derive_pda_cache_exact_key tfpaConst ⟨[], 0⟩ ⟨[5]⟩
    [SeedValue.u8 3] h0).1

/-- A family loop over candidates that all miss returns no match and tries
every candidate once. -/
theorem runAttempts_eq_none (tfpa : Tfpa) (addr pid : Pubkey)
    (l : List Attempt) (h : ∀ a ∈ l, runAttempt tfpa addr pid a = none) :
    runAttempts tfpa addr pid l = (none, l.length) := by
  induction l with
  | nil => rfl
  | cons a rest ih =>
    have ha := h a (List.mem_cons_self a rest)
    have hr := ih (fun x hx => h x (List.mem_cons_of_mem a hx))
    simp [runAttempts, ha, hr]

/-- If no seed list can derive the target address under this program id,
every candidate trial misses. -/
theorem runAttempt_eq_none_of_miss (tfpa : Tfpa) (addr pid : Pubkey)
    (a : Attempt) (h : ∀ sb b, tfpa sb pid ≠ some (addr, b)) :
    runAttempt tfpa addr pid a = none := by
  rcases ht : tfpa a.seedBytes pid with _ | ⟨d, b⟩
  · simp [runAttempt, ht]
  · have hd : d ≠ addr := fun hda => h a.seedBytes b (hda ▸ ht)
    simp [runAttempt, ht, hd]

/-- A successful family loop owes its hit to some candidate in the list. -/
theorem runAttempts_eq_some (tfpa : Tfpa) (addr pid : Pubkey)
    (l : List Attempt) (r : PdaInfo × PdaPattern × Rat)
    (h : (runAttempts tfpa addr pid l).1 = some r) :
    ∃ a ∈ l, runAttempt tfpa addr pid a = some r := by
  induction l with
  | nil => simp [runAttempts] at h
  | cons a rest ih =>
    rcases ha : runAttempt tfpa addr pid a with _ | r'
    · have h' : (runAttempts tfpa addr pid rest).1 = some r := by
        rcases hr : runAttempts tfpa addr pid rest with ⟨rr, n⟩
        simp [runAttempts, ha, hr] at h
        simp [h]
      obtain ⟨x, hx, hrx⟩ := ih h'
      exact ⟨x, List.mem_cons_of_mem a hx, hrx⟩
    · have hr : r' = r := by simpa [runAttempts, ha] using h
      subst hr
      exact ⟨a, List.mem_cons_self a rest, ha⟩

/-- A successful candidate trial records the target address, the caller's
program id, the candidate's seed list, the bump the derivation returned,
and the candidate's pattern tag and confidence. -/
theorem runAttempt_eq_some (tfpa : Tfpa) (addr pid : Pubkey) (a : Attempt)
    (r : PdaInfo × PdaPattern × Rat)
    (h : runAttempt tfpa addr pid a = some r) :
    ∃ b, tfpa a.seedBytes pid = some (addr, b) ∧
      r = ({ address := addr, program_id := pid, seeds := a.seeds, bump := b,
             first_seen_slot := none, first_seen_transaction := none },
           a.pattern, a.confidence) := by
  simp only [runAttempt] at h
  rcases ht : tfpa a.seedBytes pid with _ | ⟨d, b⟩
  · simp [ht] at h
  · simp only [ht] at h
    by_cases hd : d = addr
    · subst hd
      rw [if_pos rfl] at h
      exact ⟨b, rfl, (Option.some.inj h).symm⟩
    · rw [if_neg hd] at h
      exact absurd h (by simp)

/-- Claim C4: when every pattern family is exhausted without any candidate
deriving the target address — each of the six family searches returns no
match — `analyze_pda` returns the success value `Ok(None)`, never an
error. -/
theorem analyze_pda_miss_is_ok_none (tfpa : Tfpa)
    (address program_id : Pubkey)
    (h1 : (try_associated_token_account tfpa address program_id).1 = none)
    (h2 : (try_metaplex_patterns tfpa address program_id).1 = none)
    (h3 : (try_string_singleton_patterns tfpa address program_id).1 = none)
    (h4 : (try_authority_patterns tfpa address program_id).1 = none)
    (h5 : (try_sequential_patterns tfpa address program_id).1 = none)
    (h6 : (try_complex_patterns tfpa address program_id).1 = none) :
    (analyze_pda tfpa address program_id).1 = .ok none := by
  unfold analyze_pda
  rcases e1 : try_associated_token_account tfpa address program_id with ⟨o1, n1⟩
  rw [e1] at h1
  simp only at h1
  subst h1
  rcases e2 : try_metaplex_patterns tfpa address program_id with ⟨o2, n2⟩
  rw [e2] at h2
  simp only at h2
  subst h2
  rcases e3 : try_string_singleton_patterns tfpa address program_id with ⟨o3, n3⟩
  rw [e3] at h3
  simp only at h3
  subst h3
  rcases e4 : try_authority_patterns tfpa address program_id with ⟨o4, n4⟩
  rw [e4] at h4
  simp only at h4
  subst h4
  rcases e5 : try_sequential_patterns tfpa address program_id with ⟨o5, n5⟩
  rw [e5] at h5
  simp only at h5
  subst h5
  rcases e6 : try_complex_patterns tfpa address program_id with ⟨o6, n6⟩
  rw [e6] at h6
  simp only at h6
  subst h6
  rfl

/-- Witness for C4: with a derivation function that never hits, every
family search at a concrete input returns no match, and `analyze_pda`
returns `Ok(None)`. -/
theorem analyze_pda_miss_witness :
    (analyze_pda (fun _ _ => none) ⟨[50]⟩ ⟨[51]⟩).1 = .ok none := by
  have hz : ∀ l : List Attempt,
      (runAttempts (fun _ _ => none) ⟨[50]⟩ ⟨[51]⟩ l).1 = none := by
    intro l
    rw [runAttempts_eq_none (fun _ _ => none) ⟨[50]⟩ ⟨[51]⟩ l
      (fun a _ => runAttempt_eq_none_of_miss (fun _ _ => none) ⟨[50]⟩ ⟨[51]⟩ a
        (fun sb b hh => Option.noConfusion hh))]
  exact analyze_pda_miss_is_ok_none (fun _ _ => none) ⟨[50]⟩ ⟨[51]⟩
    (hz _) (hz _) (hz _) (hz _) (hz _) (hz _)

/-- Claim C5: the Wallet/Program/Mint (associated-token-account) family is
gated on the fixed ATA program constant — for any other program id it makes
no derivation attempts at all — any hit carries the pattern tag
`AssociatedTokenAccount`, confidence exactly 0.98, and a three-element seed
list [wallet, spl-token-program, mint]; and, being the first family tried,
its hit is what `analyze_pda` returns. -/
theorem ata_family_first_and_gated (tfpa : Tfpa)
    (address program_id : Pubkey) :
    (program_id ≠ pkAtaProgram →
      try_associated_token_account tfpa address program_id = (none, 0)) ∧
    (∀ pda pat conf,
      (try_associated_token_account tfpa address program_id).1
        = some (pda, pat, conf) →
      program_id = pkAtaProgram ∧ pat = PdaPattern.associatedTokenAccount ∧
      conf = 98/100 ∧
      ∃ w m, w ∈ test_wallets ∧ m ∈ test_mints ∧
        pda.seeds = [SeedValue.pubkey w, SeedValue.pubkey pkTokenProgram,
                     SeedValue.pubkey m]) ∧
    (∀ pda pat conf n,
      try_associated_token_account tfpa address program_id
        = (some (pda, pat, conf), n) →
      (analyze_pda tfpa address program_id).1
        = .ok (some (mkResult pda pat conf))) := by
  refine ⟨?_, ?_, ?_⟩
  · intro hg
    simp [try_associated_token_account, ata_attempts, hg, runAttempts]
  · intro pda pat conf h
    obtain ⟨a, ha, hra⟩ := runAttempts_eq_some _ _ _ _ _ h
    by_cases hg : program_id = pkAtaProgram
    · obtain ⟨b, hb, hr⟩ := runAttempt_eq_some _ _ _ _ _ hra
      rw [ata_attempts, if_pos hg] at ha
      simp only [List.mem_flatMap, List.mem_map] at ha
      obtain ⟨w, hw, m, hm, hae⟩ := ha
      subst hae
      simp only [Prod.mk.injEq] at hr
      obtain ⟨h1, h2, h3⟩ := hr
      refine ⟨hg, h2, h3, w, m, hw, hm, ?_⟩
      rw [h1]
    · rw [ata_attempts, if_neg hg] at ha
      exact absurd ha (List.not_mem_nil a)
  · intro pda pat conf n h
    simp [analyze_pda, h]

/-- Witness for C5: under a program id other than the ATA constant the
family returns no match after zero derivation attempts. -/
theorem ata_family_gate_witness :
    try_associated_token_account tfpaConst ⟨[7]⟩ pkMetaplexProgram
      = (none, 0) :=
  (ata_family_first_and_gated tfpaConst ⟨[7]⟩ pkMetaplexProgram).1 (by decide)

/-- Well-formedness of a candidate attempt: the recorded seed list encodes
to exactly the byte sequences handed to the derivation, and the confidence
lies in [0, 1]. -/
abbrev AttemptWF (a : Attempt) : Prop :=
  a.seeds.map SeedValue.as_bytes = a.seedBytes ∧
  0 ≤ a.confidence ∧ a.confidence ≤ 1

/-- Every ATA-family candidate is well-formed. -/
theorem ata_attempts_wf (program_id : Pubkey) :
    ∀ a ∈ ata_attempts program_id, AttemptWF a := by
  intro a ha
  unfold ata_attempts at ha
  by_cases h : program_id = pkAtaProgram
  · rw [if_pos h] at ha
    simp only [List.mem_flatMap, List.mem_map] at ha
    obtain ⟨w, hw, m, hm, rfl⟩ := ha
    exact ⟨rfl, by norm_num, by norm_num⟩
  · rw [if_neg h] at ha
    exact absurd ha (List.not_mem_nil a)

/-- Every Metaplex-family candidate is well-formed. -/
theorem metaplex_attempts_wf (program_id : Pubkey) :
    ∀ a ∈ metaplex_attempts program_id, AttemptWF a := by
  intro a ha
  unfold metaplex_attempts at ha
  by_cases h : program_id = pkMetaplexProgram
  · rw [if_pos h] at ha
    simp only [List.mem_flatMap, List.mem_append, List.mem_cons, List.mem_map,
      List.mem_range, List.not_mem_nil, or_false] at ha
    obtain ⟨m, hm, hcase⟩ := ha
    rcases hcase with (rfl | rfl) | ⟨k, hk, rfl⟩
    · exact ⟨rfl, by norm_num, by norm_num⟩
    · exact ⟨rfl, by norm_num, by norm_num⟩
    · exact ⟨rfl, by norm_num, by norm_num⟩
  · rw [if_neg h] at ha
    exact absurd ha (List.not_mem_nil a)

/-- Bounds of the per-string singleton confidence. -/
theorem singleton_confidence_bounds (s : String) :
    0 ≤ singleton_confidence s ∧ singleton_confidence s ≤ 1 := by
  unfold singleton_confidence
  by_cases h1 : s = "state" ∨ s = "config" ∨ s = "authority"
  · rw [if_pos h1]; norm_num
  · rw [if_neg h1]
    by_cases h2 : s = "vault" ∨ s = "pool" ∨ s = "market"
    · rw [if_pos h2]; norm_num
    · rw [if_neg h2]; norm_num

/-- Every singleton-string candidate is well-formed. -/
theorem singleton_attempts_wf : ∀ a ∈ singleton_attempts, AttemptWF a := by
  intro a ha
  simp only [singleton_attempts, List.mem_map] at ha
  obtain ⟨s, hs, rfl⟩ := ha
  exact ⟨rfl, (singleton_confidence_bounds s).1, (singleton_confidence_bounds s).2⟩

/-- Every authority-family candidate is well-formed. -/
theorem authority_attempts_wf : ∀ a ∈ authority_attempts, AttemptWF a := by
  intro a ha
  simp only [authority_attempts, List.mem_flatMap, List.mem_append,
    List.mem_cons, List.mem_map, List.mem_range, List.not_mem_nil,
    or_false] at ha
  obtain ⟨auth, hauth, hcase⟩ := ha
  rcases hcase with ((rfl | rfl) | ⟨n, hn, rfl⟩) | ⟨k, hk, rfl⟩
  · exact ⟨rfl, by norm_num, by norm_num⟩
  · exact ⟨rfl, by norm_num, by norm_num⟩
  · exact ⟨rfl, by norm_num, by norm_num⟩
  · refine ⟨?_, by norm_num, by norm_num⟩
    have hlt : 250 + k < 256 := by omega
    simp [SeedValue.as_bytes, Nat.mod_eq_of_lt hlt]

/-- Every sequential-family candidate is well-formed. -/
theorem sequential_attempts_wf : ∀ a ∈ sequential_attempts, AttemptWF a := by
  intro a ha
  simp only [sequential_attempts, List.mem_flatMap, List.mem_cons,
    List.mem_range, List.not_mem_nil, or_false] at ha
  obtain ⟨p, hp, i, hi, hcase⟩ := ha
  rcases hcase with rfl | rfl
  · exact ⟨rfl, by norm_num, by norm_num⟩
  · exact ⟨rfl, by norm_num, by norm_num⟩

/-- Every complex-family candidate is well-formed. -/
theorem complex_attempts_wf : ∀ a ∈ complex_attempts, AttemptWF a := by
  intro a ha
  simp only [complex_attempts, List.mem_flatMap] at ha
  obtain ⟨s1, hs1, pk, hpk, s2, hs2, hcase⟩ := ha
  by_cases hss : s1 ≠ s2
  · rw [if_pos hss] at hcase
    simp only [List.mem_map, List.mem_cons, List.not_mem_nil, or_false] at hcase
    obtain ⟨n, hn, rfl⟩ := hcase
    exact ⟨rfl, by norm_num, by norm_num⟩
  · rw [if_neg hss] at hcase
    exact absurd hcase (List.not_mem_nil a)

/-- A hit of a family loop over well-formed candidates is sound: target
address, caller's program id, a seed list that re-derives to exactly the
target with the recorded bump, and a confidence in [0, 1]. -/
theorem runAttempts_sound (tfpa : Tfpa) (addr pid : Pubkey)
    (l : List Attempt) (hwf : ∀ a ∈ l, AttemptWF a)
    (pda : PdaInfo) (pat : PdaPattern) (conf : Rat)
    (h : (runAttempts tfpa addr pid l).1 = some (pda, pat, conf)) :
    pda.address = addr ∧ pda.program_id = pid ∧
    tfpa (pda.seeds.map SeedValue.as_bytes) pid = some (addr, pda.bump) ∧
    0 ≤ conf ∧ conf ≤ 1 := by
  obtain ⟨a, ha, hra⟩ := runAttempts_eq_some _ _ _ _ _ h
  obtain ⟨b, hb, hr⟩ := runAttempt_eq_some _ _ _ _ _ hra
  obtain ⟨hw1, hw2, hw3⟩ := hwf a ha
  simp only [Prod.mk.injEq] at hr
  obtain ⟨h1, h2, h3⟩ := hr
  subst h1
  subst h3
  refine ⟨rfl, rfl, ?_, hw2, hw3⟩
  show tfpa (a.seeds.map SeedValue.as_bytes) pid = some (addr, b)
  rw [hw1]
  exact hb

/-- A successful analysis is produced by exactly one of the six family
searches, packaged via `mkResult`. -/
theorem analyze_pda_eq_some (tfpa : Tfpa) (address program_id : Pubkey)
    (r : PdaAnalysisResult)
    (h : (analyze_pda tfpa address program_id).1 = .ok (some r)) :
    ∃ pda pat conf, r = mkResult pda pat conf ∧
      ((try_associated_token_account tfpa address program_id).1
          = some (pda, pat, conf)
      ∨ (try_metaplex_patterns tfpa address program_id).1
          = some (pda, pat, conf)
      ∨ (try_string_singleton_patterns tfpa address program_id).1
          = some (pda, pat, conf)
      ∨ (try_authority_patterns tfpa address program_id).1
          = some (pda, pat, conf)
      ∨ (try_sequential_patterns tfpa address program_id).1
          = some (pda, pat, conf)
      ∨ (try_complex_patterns tfpa address program_id).1
          = some (pda, pat, conf)) := by
  unfold analyze_pda at h
  rcases h1 : try_associated_token_account tfpa address program_id with ⟨o1, m1⟩
  rw [h1] at h
  rcases o1 with _ | ⟨pda, pat, conf⟩
  swap
  · simp only [Except.ok.injEq, Option.some.injEq] at h
    exact ⟨pda, pat, conf, h.symm, Or.inl rfl⟩
  simp only at h
  rcases h2 : try_metaplex_patterns tfpa address program_id with ⟨o2, m2⟩
  rw [h2] at h
  rcases o2 with _ | ⟨pda, pat, conf⟩
  swap
  · simp only [Except.ok.injEq, Option.some.injEq] at h
    exact ⟨pda, pat, conf, h.symm, Or.inr (Or.inl rfl)⟩
  simp only at h
  rcases h3 : try_string_singleton_patterns tfpa address program_id with ⟨o3, m3⟩
  rw [h3] at h
  rcases o3 with _ | ⟨pda, pat, conf⟩
  swap
  · simp only [Except.ok.injEq, Option.some.injEq] at h
    exact ⟨pda, pat, conf, h.symm, Or.inr (Or.inr (Or.inl rfl))⟩
  simp only at h
  rcases h4 : try_authority_patterns tfpa address program_id with ⟨o4, m4⟩
  rw [h4] at h
  rcases o4 with _ | ⟨pda, pat, conf⟩
  swap
  · simp only [Except.ok.injEq, Option.some.injEq] at h
    exact ⟨pda, pat, conf, h.symm, Or.inr (Or.inr (Or.inr (Or.inl rfl)))⟩
  simp only at h
  rcases h5 : try_sequential_patterns tfpa address program_id with ⟨o5, m5⟩
  rw [h5] at h
  rcases o5 with _ | ⟨pda, pat, conf⟩
  swap
  · simp only [Except.ok.injEq, Option.some.injEq] at h
    exact ⟨pda, pat, conf, h.symm, Or.inr (Or.inr (Or.inr (Or.inr (Or.inl rfl))))⟩
  simp only at h
  rcases h6 : try_complex_patterns tfpa address program_id with ⟨o6, m6⟩
  rw [h6] at h
  rcases o6 with _ | ⟨pda, pat, conf⟩
  swap
  · simp only [Except.ok.injEq, Option.some.injEq] at h
    exact ⟨pda, pat, conf, h.symm, Or.inr (Or.inr (Or.inr (Or.inr (Or.inr rfl))))⟩
  simp only at h
  exact absurd h (by simp)

/-- Claim C10: whenever `analyze_pda` returns `Some(result)`, the result is
sound — its address and program id are the queried ones, deriving with the
canonical byte encodings of its seeds under the program id yields exactly
the queried address and the recorded bump, and the confidence lies in
[0, 1]. -/
theorem analyze_pda_sound (tfpa : Tfpa) (address program_id : Pubkey)
    (r : PdaAnalysisResult)
    (h : (analyze_pda tfpa address program_id).1 = .ok (some r)) :
    r.pda_info.address = address ∧ r.pda_info.program_id = program_id ∧
    tfpa (r.pda_info.seeds.map SeedValue.as_bytes) program_id
      = some (address, r.pda_info.bump) ∧
    0 ≤ r.confidence ∧ r.confidence ≤ 1 := by
  obtain ⟨pda, pat, conf, hre, hc⟩ := analyze_pda_eq_some _ _ _ _ h
  subst hre
  rcases hc with hc | hc | hc | hc | hc | hc
  · exact runAttempts_sound tfpa address program_id _
      (ata_attempts_wf program_id) pda pat conf hc
  · exact runAttempts_sound tfpa address program_id _
      (metaplex_attempts_wf program_id) pda pat conf hc
  · exact runAttempts_sound tfpa address program_id _
      singleton_attempts_wf pda pat conf hc
  · exact runAttempts_sound tfpa address program_id _
      authority_attempts_wf pda pat conf hc
  · exact runAttempts_sound tfpa address program_id _
      sequential_attempts_wf pda pat conf hc
  · exact runAttempts_sound tfpa address program_id _
      complex_attempts_wf pda pat conf hc

/-- The concrete analysis result returned for target `⟨[7]⟩` under the ATA
program with `tfpaConst`: the first wallet × mint candidate hits. -/
def rAtaW : PdaAnalysisResult :=
  { pda_info := { address := ⟨[7]⟩, program_id := pkAtaProgram,
                  seeds := [SeedValue.pubkey pkWallet9W,
                            SeedValue.pubkey pkTokenProgram,
                            SeedValue.pubkey pkUSDC],
                  bump := 255, first_seen_slot := none,
                  first_seen_transaction := none },
    pattern := PdaPattern.associatedTokenAccount, confidence := 98/100,
    analysis_time_ms := 0 }

/-- Witness for C10 at a concrete hit: the returned result's address is the
queried one and its confidence is within bounds. -/
theorem analyze_pda_sound_witness :
    (analyze_pda tfpaConst ⟨[7]⟩ pkAtaProgram).1 = .ok (some rAtaW) ∧
    rAtaW.pda_info.address = ⟨[7]⟩ ∧ rAtaW.pda_info.program_id = pkAtaProgram ∧
    0 ≤ rAtaW.confidence ∧ rAtaW.confidence ≤ 1 := by
  have h : (analyze_pda tfpaConst ⟨[7]⟩ pkAtaProgram).1 = .ok (some rAtaW) :=
    rfl
  have hs := analyze_pda_sound tfpaConst ⟨[7]⟩ pkAtaProgram rAtaW h
  exact ⟨h, hs.1, hs.2.1, hs.2.2.2.1, hs.2.2.2.2⟩

/-- Membership in an insertion step. -/
theorem mem_insertSorted {α} (le : α → α → Bool) (x y : α) (l : List α) :
    y ∈ insertSorted le x l ↔ y = x ∨ y ∈ l := by
  induction l with
  | nil => simp [insertSorted]
  | cons a rest ih =>
    by_cases h : le x a
    · simp [insertSorted, h]
    · simp [insertSorted, h, ih]
      tauto

/-- The sort is a permutation in the membership sense. -/
theorem mem_sortByBool {α} (le : α → α → Bool) (x : α) (l : List α) :
    x ∈ sortByBool le l ↔ x ∈ l := by
  induction l with
  | nil => simp [sortByBool]
  | cons a rest ih => simp [sortByBool, mem_insertSorted, ih]

/-- Inserting into a sorted list keeps it sorted, for a total transitive
Boolean precedence. -/
theorem pairwise_insertSorted {α} (le : α → α → Bool)
    (htot : ∀ a b, le a b = true ∨ le b a = true)
    (htrans : ∀ a b c, le a b = true → le b c = true → le a c = true)
    (x : α) (l : List α) (hl : l.Pairwise (fun a b => le a b = true)) :
    (insertSorted le x l).Pairwise (fun a b => le a b = true) := by
  induction l with
  | nil => simp [insertSorted]
  | cons a rest ih =>
    rw [List.pairwise_cons] at hl
    obtain ⟨ha, hrest⟩ := hl
    by_cases h : le x a
    · rw [insertSorted, if_pos h, List.pairwise_cons]
      refine ⟨?_, List.pairwise_cons.mpr ⟨ha, hrest⟩⟩
      intro y hy
      rcases List.mem_cons.mp hy with hya | hy2
      · subst hya
        exact h
      · exact htrans x a y h (ha y hy2)
    · rw [insertSorted, if_neg h, List.pairwise_cons]
      refine ⟨?_, ih hrest⟩
      intro y hy
      rcases (mem_insertSorted le x y rest).mp hy with hyx | hy2
      · subst hyx
        rcases htot y a with hya2 | hay
        · exact absurd hya2 h
        · exact hay
      · exact ha y hy2

/-- The insertion sort produces a list sorted by the precedence relation. -/
theorem pairwise_sortByBool {α} (le : α → α → Bool)
    (htot : ∀ a b, le a b = true ∨ le b a = true)
    (htrans : ∀ a b c, le a b = true → le b c = true → le a c = true)
    (l : List α) :
    (sortByBool le l).Pairwise (fun a b => le a b = true) := by
  induction l with
  | nil => simp [sortByBool]
  | cons a rest ih => exact pairwise_insertSorted le htot htrans a _ ih

/-- The score comparator is total. -/
theorem matchLe_total (a b : PatternMatch) :
    matchLe a b = true ∨ matchLe b a = true := by
  unfold matchLe
  rcases le_total b.match_score a.match_score with h | h
  · exact Or.inl (decide_eq_true h)
  · exact Or.inr (decide_eq_true h)

/-- The score comparator is transitive. -/
theorem matchLe_trans (a b c : PatternMatch) :
    matchLe a b = true → matchLe b c = true → matchLe a c = true := by
  unfold matchLe
  intro h1 h2
  exact decide_eq_true (le_trans (of_decide_eq_true h2) (of_decide_eq_true h1))

/-- Claim C8 counterexample: an empty template and an empty observed seed
list have equal length and (vacuously) every position's type matching, yet
the score is 0, not 100 — the source computes 0/0 there (NaN in Rust f64,
0 in the rational model; either way not 100). -/
theorem calculate_pattern_match_empty :
    ([] : List SeedValue).length = ([] : List SeedTemplate).length ∧
    (∀ p ∈ ([] : List SeedValue).zip ([] : List SeedTemplate),
      p.1.seed_type = p.2.seed_type) ∧
    calculate_pattern_match [] [] = some 0 ∧
    ¬ calculate_pattern_match [] [] = some 100 := by
  refine ⟨rfl, by simp, ?_, ?_⟩
  · simp [calculate_pattern_match]
  · simp [calculate_pattern_match]

/-- Claim C8 (amended): length mismatch excludes the template entirely (no
score); equal *nonzero* length with every position's type matching scores
exactly 100; in general the score on equal lengths is
(matching positions / total positions) · 100; and the returned matches are
sorted by score descending. -/
theorem pattern_match_scoring (seeds : List SeedValue)
    (template : List SeedTemplate) (known : KnownPatterns) (pda : PdaInfo) :
    (seeds.length ≠ template.length →
      calculate_pattern_match seeds template = none) ∧
    (seeds.length = template.length → seeds ≠ [] →
      (∀ p ∈ seeds.zip template, p.1.seed_type = p.2.seed_type) →
      calculate_pattern_match seeds template = some 100) ∧
    (seeds.length = template.length →
      calculate_pattern_match seeds template =
        some ((((seeds.zip template).filter
            (fun p => decide (p.1.seed_type = p.2.seed_type))).length : Rat) /
          (seeds.length : Rat) * 100)) ∧
    (match_against_known_patterns known pda).Pairwise
      (fun a b => b.match_score ≤ a.match_score) := by
  refine ⟨?_, ?_, ?_, ?_⟩
  · intro hlen
    simp only [calculate_pattern_match]
    rw [if_pos hlen]
  · intro hlen hne hall
    simp only [calculate_pattern_match]
    rw [if_neg (fun hcontra => hcontra hlen)]
    have hfilter : ((seeds.zip template).filter
        (fun p => decide (p.1.seed_type = p.2.seed_type))) = seeds.zip template :=
      List.filter_eq_self.mpr (fun p hp => decide_eq_true (hall p hp))
    rw [hfilter]
    have hzlen : ((seeds.zip template).length : Rat) = (seeds.length : Rat) := by
      rw [List.length_zip, ← hlen, min_self]
    have hpos : (seeds.length : Rat) ≠ 0 := by
      have := List.length_pos.mpr hne
      exact_mod_cast this.ne'
    rw [hzlen, div_self hpos, one_mul]
  · intro hlen
    simp only [calculate_pattern_match]
    rw [if_neg (fun hcontra => hcontra hlen)]
  · exact (pairwise_sortByBool matchLe matchLe_total matchLe_trans _).imp
      (fun h => of_decide_eq_true h)

/-- A two-position template with string and u64 slots, used as a concrete
scoring input. -/
def tmplStrU64 : List SeedTemplate :=
  [{ name := "p", seed_type := "string", description := none,
     is_variable := false },
   { name := "id", seed_type := "u64", description := none,
     is_variable := true }]

/-- Witness for C8: the fully matching two-seed observation scores exactly
100 against the two-slot template. -/
theorem pattern_match_scoring_witness :
    calculate_pattern_match [SeedValue.str "test", SeedValue.u64 12345]
      tmplStrU64 = some 100 :=
  (pattern_match_scoring [SeedValue.str "test", SeedValue.u64 12345]
      tmplStrU64 []
      { address := ⟨[0]⟩, program_id := ⟨[0]⟩, seeds := [], bump := 0,
        first_seen_slot := none, first_seen_transaction := none }).2.1
    rfl (by simp) (by decide)

/-- Any emitted detected pattern passed the ≥2 frequency guard and carries
the confidence computed from its own frequency and the total record count. -/
theorem detect_patterns_mem (program_id : Pubkey) (pdas : List PdaInfo)
    (dp : DetectedPattern) (h : dp ∈ detect_patterns program_id pdas) :
    2 ≤ dp.frequency ∧
    dp.confidence = calculate_confidence dp.frequency pdas.length := by
  unfold detect_patterns at h
  rw [mem_sortByBool] at h
  simp only [List.mem_filterMap] at h
  obtain ⟨e, he, hfe⟩ := h
  by_cases h2 : 2 ≤ e.2
  · rw [if_pos h2] at hfe
    rcases hg : lookupGroup e.1 (pdas.foldl (tallyStep program_id) ([], [])).2
      with _ | g
    · simp only [hg] at hfe
      exact absurd hfe (by simp)
    · rcases g with _ | ⟨ex0, exs⟩
      · simp only [hg] at hfe
        exact absurd hfe (by simp)
      · simp only [hg] at hfe
        injection hfe with hdp
        subst hdp
        exact ⟨h2, rfl⟩
  · rw [if_neg h2] at hfe
    exact absurd hfe (by simp)

/-- Folding the tally over records that all carry signature `s` adds their
count and their list to the accumulator entry for `s`. -/
theorem tally_foldl_uniform (program_id : Pubkey) (s : String)
    (l : List PdaInfo)
    (h : ∀ p ∈ l, p.program_id = program_id →
      create_pattern_signature p.seeds = s) :
    ∀ (k : Nat) (g : List PdaInfo),
      l.foldl (tallyStep program_id) ([(s, k)], [(s, g)]) =
        ([(s, k + (l.filter
            (fun p => decide (p.program_id = program_id))).length)],
         [(s, g ++ l.filter
            (fun p => decide (p.program_id = program_id)))]) := by
  induction l with
  | nil => intro k g; simp
  | cons p rest ih =>
    intro k g
    by_cases hp : p.program_id = program_id
    · have hs : create_pattern_signature p.seeds = s :=
        h p (List.mem_cons_self p rest) hp
      have step : tallyStep program_id ([(s, k)], [(s, g)]) p =
          ([(s, k + 1)], [(s, g ++ [p])]) := by
        simp [tallyStep, hp, hs, bumpFreq, pushGroup]
      rw [List.foldl_cons, step,
        ih (fun q hq => h q (List.mem_cons_of_mem p hq)) (k + 1) (g ++ [p])]
      have hfil : List.filter (fun p => decide (p.program_id = program_id))
          (p :: rest)
          = p :: List.filter (fun p => decide (p.program_id = program_id))
              rest := by
        simp [hp]
      rw [hfil]
      simp only [List.length_cons, List.append_assoc, List.singleton_append,
        Prod.mk.injEq, List.cons.injEq, and_true, true_and]
      omega
    · have step : tallyStep program_id ([(s, k)], [(s, g)]) p =
          ([(s, k)], [(s, g)]) := by
        simp [tallyStep, hp]
      rw [List.foldl_cons, step,
        ih (fun q hq => h q (List.mem_cons_of_mem p hq)) k g]
      simp [List.filter_cons, hp]

/-- From the empty accumulators, tallying uniform-signature records yields
either empty results (no matching record) or the single entry for `s`
holding exactly the matching records. -/
theorem tally_foldl_from_nil (program_id : Pubkey) (s : String)
    (l : List PdaInfo)
    (h : ∀ p ∈ l, p.program_id = program_id →
      create_pattern_signature p.seeds = s) :
    (l.filter (fun p => decide (p.program_id = program_id)) = [] ∧
      l.foldl (tallyStep program_id) ([], []) = ([], [])) ∨
    l.foldl (tallyStep program_id) ([], []) =
      ([(s, (l.filter
          (fun p => decide (p.program_id = program_id))).length)],
       [(s, l.filter (fun p => decide (p.program_id = program_id)))]) := by
  induction l with
  | nil => exact Or.inl ⟨rfl, rfl⟩
  | cons p rest ih =>
    by_cases hp : p.program_id = program_id
    · have hs : create_pattern_signature p.seeds = s :=
        h p (List.mem_cons_self p rest) hp
      have step : tallyStep program_id ([], []) p = ([(s, 1)], [(s, [p])]) := by
        simp [tallyStep, hp, hs, bumpFreq, pushGroup]
      right
      rw [List.foldl_cons, step,
        tally_foldl_uniform program_id s rest
          (fun q hq => h q (List.mem_cons_of_mem p hq)) 1 [p]]
      have hfil : List.filter (fun p => decide (p.program_id = program_id))
          (p :: rest)
          = p :: List.filter (fun p => decide (p.program_id = program_id))
              rest := by
        simp [hp]
      rw [hfil]
      simp only [List.length_cons, List.singleton_append, Prod.mk.injEq,
        List.cons.injEq, and_true, true_and]
      omega
    · have step : tallyStep program_id ([], []) p = ([], []) := by
        simp [tallyStep, hp]
      rw [List.foldl_cons, step]
      have hrest := ih (fun q hq => h q (List.mem_cons_of_mem p hq))
      simpa [List.filter_cons, hp] using hrest

/-- Claim C6: `detect_patterns` never emits a pattern whose group has fewer
than two members, and when every matching record carries one common
signature and at least two records match, it emits exactly one pattern
carrying the matching-record count as its frequency. -/
theorem detect_patterns_threshold (program_id : Pubkey)
    (pdas : List PdaInfo) :
    (∀ dp ∈ detect_patterns program_id pdas, 2 ≤ dp.frequency) ∧
    ∀ s : String,
      (∀ p ∈ pdas, p.program_id = program_id →
        create_pattern_signature p.seeds = s) →
      2 ≤ (pdas.filter
        (fun p => decide (p.program_id = program_id))).length →
      ∃ dp, detect_patterns program_id pdas = [dp] ∧
        dp.frequency = (pdas.filter
          (fun p => decide (p.program_id = program_id))).length := by
  constructor
  · intro dp hdp
    exact (detect_patterns_mem program_id pdas dp hdp).1
  · intro s huni hlen
    rcases tally_foldl_from_nil program_id s pdas huni with ⟨hemp, _⟩ | hacc
    · rw [hemp] at hlen
      simp at hlen
    · rcases hfe : pdas.filter (fun p => decide (p.program_id = program_id))
        with _ | ⟨f0, ftl⟩
      · rw [hfe] at hlen
        simp at hlen
      · rw [hfe] at hacc hlen ⊢
        have hdet : detect_patterns program_id pdas =
            [{ program_id := program_id, pattern_signature := s,
               seed_template := create_seed_template f0.seeds,
               frequency := (f0 :: ftl).length,
               confidence :=
                 calculate_confidence (f0 :: ftl).length pdas.length,
               examples := ((f0 :: ftl).take 5).map (fun p => p.address) }] := by
          have h1 : 1 ≤ ftl.length := by
            simp only [List.length_cons] at hlen
            omega
          unfold detect_patterns
          rw [hacc]
          simp [lookupGroup, sortByBool, insertSorted, List.filterMap_cons,
            List.filterMap_nil, h1]
        exact ⟨_, hdet, rfl⟩

/-- Claim C7: every emitted pattern's confidence equals
min((frequency / total records) · 100, 95), hence is at most 95. -/
theorem detect_patterns_confidence (program_id : Pubkey)
    (pdas : List PdaInfo) :
    ∀ dp ∈ detect_patterns program_id pdas,
      dp.confidence
        = min ((dp.frequency : Rat) / (pdas.length : Rat) * 100) 95 ∧
      dp.confidence ≤ 95 := by
  intro dp hdp
  obtain ⟨hfreq, hconf⟩ := detect_patterns_mem program_id pdas dp hdp
  have hcc : calculate_confidence dp.frequency pdas.length
      = min ((dp.frequency : Rat) / (pdas.length : Rat) * 100) 95 := by
    unfold calculate_confidence
    by_cases ht : pdas.length = 0
    · rw [if_pos ht, ht]
      rw [Nat.cast_zero, div_zero, zero_mul]
      rw [min_eq_left (by norm_num)]
    · rw [if_neg ht]
  rw [hconf, hcc]
  exact ⟨rfl, min_le_right _ _⟩

/-- Program id of the concrete detection witness inputs. -/
def pidW : Pubkey := ⟨[77]⟩

/-- First concrete record: a single string seed, signature "string". -/
def recW1 : PdaInfo :=
  { address := ⟨[100]⟩, program_id := pidW,
    seeds := [SeedValue.str "metadata"], bump := 254,
    first_seen_slot := none, first_seen_transaction := none }

/-- Second concrete record: also signature "string". -/
def recW2 : PdaInfo :=
  { address := ⟨[101]⟩, program_id := pidW,
    seeds := [SeedValue.str "config"], bump := 254,
    first_seen_slot := none, first_seen_transaction := none }

/-- Witness for C6: two records of one signature yield exactly one detected
pattern of frequency 2. -/
theorem detect_patterns_threshold_witness :
    ∃ dp, detect_patterns pidW [recW1, recW2] = [dp] ∧ dp.frequency = 2 :=
  (detect_patterns_threshold pidW [recW1, recW2]).2 "string"
    (by decide) (by decide)

/-- The detected pattern of the concrete two-record input. -/
def dpW : DetectedPattern :=
  { program_id := pidW, pattern_signature := "string",
    seed_template := create_seed_template [SeedValue.str "metadata"],
    frequency := 2, confidence := calculate_confidence 2 2,
    examples := [⟨[100]⟩, ⟨[101]⟩] }

/-- Witness for C7: the concrete detected pattern's confidence equals the
capped formula (min(2/2·100, 95) = 95) and is at most 95. -/
theorem detect_patterns_confidence_witness :
    dpW.confidence = min ((dpW.frequency : Rat) / ((2 : Nat) : Rat) * 100) 95 ∧
    dpW.confidence ≤ 95 := by
  have hdet : detect_patterns pidW [recW1, recW2] = [dpW] := rfl
  have hmem : dpW ∈ detect_patterns pidW [recW1, recW2] := by
    rw [hdet]
    exact List.mem_singleton.mpr rfl
  exact detect_patterns_confidence pidW [recW1, recW2] dpW hmem
